import Mathlib

/-!
Shallow embedding of `ast_code_diff.py` (AST Diff Analyzer).

The program maps the lines touched by a unified diff to the code structures
(classes, functions, methods, ...) that contain them.  Pure functions of the
source are translated to Lean functions; the stateful diff walk of
`DiffAnalyzer.analyze` becomes a fold over an explicit state record; the
analyzer cache becomes explicit state threading.  The external collaborators
(the filesystem, `git show`, Python's `ast.parse`, and `javalang.parse`)
are modelled as oracle functions packaged in `DiffEnv`: they are not part of
this repository, and only their results are visible to the code under test.
-/

namespace AstCodeDiff

/-- Python `s.split(sep)` for a nonempty separator, on character lists:
scan left to right, cut at each (non-overlapping) occurrence of the
separator.  The first argument is fuel, instantiated with more characters
than the input has so that the recursion is structural; every step consumes
at least one input character, so the fuel never runs out in `pySplit`. -/
def pySplitAux (sep : List Char) : Nat → List Char → List Char → List (List Char)
  | 0, cs, cur => [cur.reverse ++ cs]
  | _ + 1, [], cur => [cur.reverse]
  | fuel + 1, c :: rest, cur =>
    if sep.isPrefixOf (c :: rest) then
      cur.reverse :: pySplitAux sep fuel (List.drop sep.length (c :: rest)) []
    else pySplitAux sep fuel rest (c :: cur)

/-- Python `s.split(sep)` (all separators in this program are nonempty). -/
def pySplit (s sep : String) : List String :=
  (pySplitAux sep.data (s.data.length + 1) s.data []).map fun cs => String.mk cs

/-- Python `s.strip()`: drop whitespace from both ends. -/
def pyStrip (s : String) : String :=
  String.mk (((s.data.dropWhile Char.isWhitespace).reverse.dropWhile Char.isWhitespace).reverse)

/-- Python `s.rstrip()`: drop trailing whitespace. -/
def pyRstrip (s : String) : String :=
  String.mk ((s.data.reverse.dropWhile Char.isWhitespace).reverse)

/-- Python `s.lower()`. -/
def pyToLower (s : String) : String :=
  String.mk (s.data.map Char.toLower)

/-- Code structure types, from the `StructureType` string enum. -/
inductive StructureType where
  | CLASS
  | INTERFACE
  | ENUM
  | FUNCTION
  | METHOD
  | CONSTRUCTOR
  deriving DecidableEq, Repr

/-- String value of each `StructureType` member. -/
def StructureType.value : StructureType → String
  | .CLASS => "class"
  | .INTERFACE => "interface"
  | .ENUM => "enum"
  | .FUNCTION => "function"
  | .METHOD => "method"
  | .CONSTRUCTOR => "constructor"

/-- The `CodeStructure` dataclass.  `parent` is an optional back-reference to
the enclosing structure, so the type is a nested inductive.  In Python the
parent field holds an aliased mutable reference; here it holds the parent
value (the Java pipeline below attaches the parent only after its end line
is final, which matches the aliased state the Python program ends up with). -/
inductive CodeStructure where
  | mk (name : String) (type : StructureType) (start_line : Nat) (end_line : Nat)
       (parent : Option CodeStructure) (modifiers : List String)
       (params : List String) (return_type : String)

def CodeStructure.name : CodeStructure → String
  | .mk n _ _ _ _ _ _ _ => n

def CodeStructure.type : CodeStructure → StructureType
  | .mk _ t _ _ _ _ _ _ => t

def CodeStructure.start_line : CodeStructure → Nat
  | .mk _ _ s _ _ _ _ _ => s

def CodeStructure.end_line : CodeStructure → Nat
  | .mk _ _ _ e _ _ _ _ => e

def CodeStructure.parent : CodeStructure → Option CodeStructure
  | .mk _ _ _ _ p _ _ _ => p

def CodeStructure.modifiers : CodeStructure → List String
  | .mk _ _ _ _ _ m _ _ => m

def CodeStructure.params : CodeStructure → List String
  | .mk _ _ _ _ _ _ ps _ => ps

def CodeStructure.return_type : CodeStructure → String
  | .mk _ _ _ _ _ _ _ r => r

/-- Functional form of the Python in-place assignment `struct.end_line = e`. -/
def CodeStructure.setEndLine : CodeStructure → Nat → CodeStructure
  | .mk n t s _ p m ps r, e => .mk n t s e p m ps r

/-- The `line_count` property: `end_line - start_line + 1`.  Python ints are
unbounded and the difference may be negative for a malformed range, so the
result lives in `Int`. -/
def CodeStructure.line_count (s : CodeStructure) : Int :=
  (s.end_line : Int) - (s.start_line : Int) + 1

/-- The containment test `s.start_line <= line_num <= s.end_line` used by
`get_structure_at_line` and (via `range`) by `build_line_map`. -/
def containsLine (s : CodeStructure) (n : Nat) : Prop :=
  s.start_line ≤ n ∧ n ≤ s.end_line

instance (s : CodeStructure) (n : Nat) : Decidable (containsLine s n) :=
  inferInstanceAs (Decidable (_ ∧ _))

/-- The `get_full_path` method: modifiers, kind and name chained from the
outermost ancestor down to the structure itself, joined by " > ". -/
def CodeStructure.get_full_path : CodeStructure → String
  | .mk n t _ _ p m _ _ =>
    let part := (if m ≠ [] then " ".intercalate m ++ " " else "") ++ t.value ++ " " ++ n
    match p with
    | none => part
    | some par => par.get_full_path ++ " > " ++ part

/-- The `line_map` dictionary of a `LanguageAnalyzer`, as a partial map. -/
def LineMap : Type := Nat → Option CodeStructure

def emptyLineMap : LineMap := fun _ => none

/-- One `build_line_map` dictionary update for a single line: absent lines are
claimed, present lines are replaced only by a strictly smaller range. -/
def mergeEntry (existing : Option CodeStructure) (struct : CodeStructure) :
    Option CodeStructure :=
  match existing with
  | none => some struct
  | some e => if struct.line_count < e.line_count then some struct else some e

def insertLine (m : LineMap) (line : Nat) (struct : CodeStructure) : LineMap :=
  fun n => if n = line then mergeEntry (m line) struct else m n

/-- `range(struct.start_line, struct.end_line + 1)`. -/
def structLineRange (s : CodeStructure) : List Nat :=
  List.range' s.start_line (s.end_line + 1 - s.start_line)

/-- The inner loop body of `build_line_map` for one structure. -/
def addStructLines (m : LineMap) (s : CodeStructure) : LineMap :=
  (structLineRange s).foldl (fun m line => insertLine m line s) m

/-- `LanguageAnalyzer.build_line_map`, run from the empty dictionary as in a
fresh analyzer. -/
def buildLineMap (structures : List CodeStructure) : LineMap :=
  structures.foldl addStructLines emptyLineMap

/-- State of a parsed `LanguageAnalyzer`: its source, the extracted
structures, and the built line map. -/
structure LanguageAnalyzerState where
  file_path : String
  content : String
  structures : List CodeStructure
  line_map : LineMap

/-- The analyzer state reached after a successful `parse`: structures stored
and `build_line_map` run. -/
def analyzerOfStructures (file_path content : String)
    (structures : List CodeStructure) : LanguageAnalyzerState :=
  ⟨file_path, content, structures, buildLineMap structures⟩

/-- Python `min(candidates, key=lambda s: s.line_count)` on a possibly empty
list: `min` keeps the earliest element among those of minimal key. -/
def pyMinByLineCount : List CodeStructure → Option CodeStructure
  | [] => none
  | s :: rest =>
    some (rest.foldl (fun acc t => if t.line_count < acc.line_count then t else acc) s)

/-- `LanguageAnalyzer.get_structure_at_line`: fast path through the line map,
slow path scanning all structures containing the line and taking the one of
minimal `line_count`. -/
def get_structure_at_line (a : LanguageAnalyzerState) (line_num : Nat) :
    Option CodeStructure :=
  match a.line_map line_num with
  | some s => some s
  | none =>
    let candidates := a.structures.filter (fun s => decide (containsLine s line_num))
    pyMinByLineCount candidates

/-!
Python analyzer (`PythonAnalyzer`).  The `ast` module is an external
collaborator; its output is modelled by the `PyNode` tree below, which keeps
exactly the node data `_visit_node` and `_get_decorators` read.
-/

/-- A decorator expression as inspected by `_get_decorators`: an `ast.Name`,
an `ast.Call` whose function is a `Name`, a `Call` with any other function
expression, or any other expression. -/
inductive PyDec where
  | decName (id : String)
  | decCall (funcId : String)
  | decCallOther
  | decOther

/-- `PythonAnalyzer._get_decorators`: keep `@name` for `Name` decorators and
`@func` for `Call`-of-`Name` decorators, skip the rest. -/
def get_decorators (decs : List PyDec) : List String :=
  decs.filterMap fun d =>
    match d with
    | .decName i => some ("@" ++ i)
    | .decCall f => some ("@" ++ f)
    | .decCallOther => none
    | .decOther => none

/-- A Python AST node as read by `_visit_node`.  `funcDef` covers both
`FunctionDef` and `AsyncFunctionDef` (the source treats them identically);
`args` holds the positional argument names `arg.arg`; `returns` holds the
unparsed return annotation when present.  `other` is any node with a `body`
attribute, `leaf` any node without one. -/
inductive PyNode where
  | classDef (name : String) (lineno : Nat) (end_lineno : Option Nat)
      (decorator_list : List PyDec) (body : List PyNode)
  | funcDef (name : String) (lineno : Nat) (end_lineno : Option Nat)
      (decorator_list : List PyDec) (args : List String) (returns : Option String)
      (body : List PyNode)
  | other (body : List PyNode)
  | leaf

/-- Python `node.end_lineno or node.lineno`: `or` falls back on a falsy
left operand, i.e. on `None` and on `0`. -/
def pyOr (e : Option Nat) (d : Nat) : Nat :=
  match e with
  | none => d
  | some v => if v = 0 then d else v

mutual

/-- `PythonAnalyzer._visit_node`: extract structures in preorder, threading
the enclosing structure as parent. -/
def visitNode : PyNode → Option CodeStructure → List CodeStructure
  | .classDef nm l e decs body, parent =>
    let struct : CodeStructure :=
      .mk nm .CLASS l (pyOr e l) parent (get_decorators decs) [] ""
    struct :: visitList body (some struct)
  | .funcDef nm l e decs args rets body, parent =>
    let func_type :=
      match parent with
      | some p => if p.type = .CLASS then StructureType.METHOD else .FUNCTION
      | none => StructureType.FUNCTION
    let struct : CodeStructure :=
      .mk nm func_type l (pyOr e l) parent (get_decorators decs) args (rets.getD "")
    struct :: visitList body (some struct)
  | .other body, parent => visitList body parent
  | .leaf, _ => []

/-- The `for child in node.body: self._visit_node(child, ...)` loops. -/
def visitList : List PyNode → Option CodeStructure → List CodeStructure
  | [], _ => []
  | n :: ns, parent => visitNode n parent ++ visitList ns parent

end

mutual

/-- Well-formedness of the native parser's spans: whenever `end_lineno` is a
truthy value it is at least `lineno` (the spec's "native parser that reports
exact start/end line spans"). -/
def spanOk : PyNode → Bool
  | .classDef _ l e _ body => decide (l ≤ pyOr e l) && spanOkList body
  | .funcDef _ l e _ _ _ body => decide (l ≤ pyOr e l) && spanOkList body
  | .other body => spanOkList body
  | .leaf => true

def spanOkList : List PyNode → Bool
  | [] => true
  | n :: ns => spanOk n && spanOkList ns

end

/-- `PythonAnalyzer.parse` after a successful `ast.parse`: visit the tree
with no parent, then build the line map. -/
def pythonAnalyzerOf (file_path content : String) (tree : PyNode) :
    LanguageAnalyzerState :=
  analyzerOfStructures file_path content (visitNode tree none)

/-!
Java analyzer (`JavaAnalyzer`).  `javalang` is an external collaborator; its
parse result is modelled by `JavaFile` below, carrying for each declaration
the data the source reads: name, `position.line` (optional, declarations
without a position are skipped), modifiers, parameters, return type, and for
classes the names of enclosing class declarations on the AST path (used by
`_find_parent_structure`).  The brace-matching end-line pass is translated
in full from the source.
-/

def DEFAULT_CLASS_LINES : Nat := 1000
def DEFAULT_INTERFACE_LINES : Nat := 1000
def DEFAULT_ENUM_LINES : Nat := 100
def DEFAULT_METHOD_LINES : Nat := 50
def DEFAULT_CONSTRUCTOR_LINES : Nat := 50
def FALLBACK_END_LINE_ESTIMATE : Nat := 100

/-- A method or constructor declaration as read by `_process_method` /
`_process_constructor` (with `_extract_parameters` already applied to the
parameter list, as its output is what the source stores). -/
structure JMemberDecl where
  name : String
  position : Option Nat
  modifiers : List String
  params : List String
  return_type : String

/-- A class / interface / enum declaration as read by `_process_class`,
`_process_interface` and `_process_enum`. -/
structure JTypeDecl where
  name : String
  position : Option Nat
  modifiers : List String
  ancestry : List String
  constructors : List JMemberDecl
  methods : List JMemberDecl

/-- The `javalang` parse result consumed by `JavaAnalyzer.parse`: the three
`tree.filter(...)` streams, in filter order. -/
structure JavaFile where
  package_name : String
  classes : List JTypeDecl
  interfaces : List JTypeDecl
  enums : List JTypeDecl

/-- The character loop of `_update_structure_end_line` over one physical
line.  `prev` is the previous character of the line (`line[j-1]`).  Returns
the running brace count, the `found_start` flag, and whether the matching
closing brace was found on this line (in which case the source returns). -/
def scanChars : List Char → Option Char → Bool → Int → Bool → Int × Bool × Bool
  | [], _, _, brace_count, found_start => (brace_count, found_start, false)
  | c :: rest, prev, in_string, brace_count, found_start =>
    let in_string' :=
      if c = '"' ∧ (prev = none ∨ prev ≠ some '\\') then !in_string else in_string
    if in_string' then scanChars rest (some c) in_string' brace_count found_start
    else if c = '/' ∧ rest.head? = some '/' then (brace_count, found_start, false)
    else if c = '{' then scanChars rest (some c) in_string' (brace_count + 1) true
    else if c = '}' then
      if found_start ∧ brace_count - 1 = 0 then (brace_count - 1, found_start, true)
      else scanChars rest (some c) in_string' (brace_count - 1) found_start
    else scanChars rest (some c) in_string' brace_count found_start

/-- The line loop of `_update_structure_end_line`: `i` is the 0-based index
of the current line; on a match the source sets `end_line = i + 1`.
`in_string` and `in_comment` are reset at the top of each line. -/
def scanLines : List String → Int → Bool → Nat → Option Nat
  | [], _, _, _ => none
  | l :: rest, brace_count, found_start, i =>
    match scanChars l.data none false brace_count found_start with
    | (bc', fs', ended) =>
      if ended then some (i + 1) else scanLines rest bc' fs' (i + 1)

/-- `JavaAnalyzer._update_structure_end_line`, as a functional update of the
structure it mutates. -/
def update_structure_end_line (content : String) (struct : CodeStructure) :
    CodeStructure :=
  if (pySplit content "\n").length ≤ struct.start_line - 1 then
    struct.setEndLine
      (min (struct.start_line + FALLBACK_END_LINE_ESTIMATE) (pySplit content "\n").length)
  else
    match scanLines ((pySplit content "\n").drop (struct.start_line - 1)) 0 false
        (struct.start_line - 1) with
    | some e => struct.setEndLine e
    | none =>
      struct.setEndLine
        (min (struct.start_line + FALLBACK_END_LINE_ESTIMATE) (pySplit content "\n").length)

/-- `JavaAnalyzer._find_parent_structure`: walk the enclosing class names on
the AST path and return the first already-created structure with that name
and kind CLASS. -/
def find_parent_structure (structures : List CodeStructure) :
    List String → Option CodeStructure
  | [] => none
  | n :: rest =>
    match structures.find? (fun s => s.name == n && decide (s.type = .CLASS)) with
    | some s => some s
    | none => find_parent_structure structures rest

/-- `_process_method` / `_process_constructor`: skip members without a
position, otherwise create the structure with its placeholder span and run
the end-line pass.  The source appends the structure and then mutates its
end line in place; appending the updated structure is the same final list. -/
def process_member (content : String) (parent : CodeStructure)
    (kind : StructureType) (defaultLines : Nat) (m : JMemberDecl)
    (acc : List CodeStructure) : List CodeStructure :=
  match m.position with
  | none => acc
  | some line =>
    let s : CodeStructure :=
      .mk m.name kind line (line + defaultLines) (some parent) m.modifiers
        m.params m.return_type
    acc ++ [update_structure_end_line content s]

/-- `_process_class`.  The source updates the class's end line after the
member loops; since the brace scan depends only on `start_line` and the file
content, updating first yields the same structure, and lets the members hold
the final parent value (in Python they alias the mutated object). -/
def process_class (content : String) (structures : List CodeStructure)
    (d : JTypeDecl) : List CodeStructure :=
  match d.position with
  | none => structures
  | some line =>
    let parent_class := find_parent_structure structures d.ancestry
    let c0 : CodeStructure :=
      .mk d.name .CLASS line (line + DEFAULT_CLASS_LINES) parent_class d.modifiers [] ""
    let c := update_structure_end_line content c0
    let structures := structures ++ [c]
    let structures := d.constructors.foldl
      (fun acc m => process_member content c .CONSTRUCTOR DEFAULT_CONSTRUCTOR_LINES m acc)
      structures
    d.methods.foldl
      (fun acc m => process_member content c .METHOD DEFAULT_METHOD_LINES m acc)
      structures

/-- `_process_interface` (interfaces are created without a parent). -/
def process_interface (content : String) (structures : List CodeStructure)
    (d : JTypeDecl) : List CodeStructure :=
  match d.position with
  | none => structures
  | some line =>
    let c0 : CodeStructure :=
      .mk d.name .INTERFACE line (line + DEFAULT_INTERFACE_LINES) none d.modifiers [] ""
    let c := update_structure_end_line content c0
    let structures := structures ++ [c]
    d.methods.foldl
      (fun acc m => process_member content c .METHOD DEFAULT_METHOD_LINES m acc)
      structures

/-- `_process_enum`. -/
def process_enum (content : String) (structures : List CodeStructure)
    (d : JTypeDecl) : List CodeStructure :=
  match d.position with
  | none => structures
  | some line =>
    let c0 : CodeStructure :=
      .mk d.name .ENUM line (line + DEFAULT_ENUM_LINES) none d.modifiers [] ""
    structures ++ [update_structure_end_line content c0]

/-- The structure-extraction part of `JavaAnalyzer.parse`: the three filter
loops in source order. -/
def javaAnalyzerStructures (content : String) (jf : JavaFile) :
    List CodeStructure :=
  let s := jf.classes.foldl (process_class content) []
  let s := jf.interfaces.foldl (process_interface content) s
  jf.enums.foldl (process_enum content) s

/-- `JavaAnalyzer.parse` after a successful `javalang` parse. -/
def javaAnalyzerOf (file_path content : String) (jf : JavaFile) :
    LanguageAnalyzerState :=
  analyzerOfStructures file_path content (javaAnalyzerStructures content jf)

/-- Validity of one reported declaration position with respect to the parsed
content: 1-based and within the file's lines.  `javalang` positions come
from parsing that very content, so real parses satisfy this. -/
def posOk (content : String) (p : Option Nat) : Bool :=
  match p with
  | none => true
  | some l => decide (1 ≤ l) && decide (l ≤ (pySplit content "\n").length)

def memberPosOk (content : String) (m : JMemberDecl) : Bool :=
  posOk content m.position

def typePosOk (content : String) (d : JTypeDecl) : Bool :=
  posOk content d.position && d.constructors.all (memberPosOk content)
    && d.methods.all (memberPosOk content)

def javaFilePosOk (content : String) (jf : JavaFile) : Bool :=
  jf.classes.all (typePosOk content) && jf.interfaces.all (typePosOk content)
    && jf.enums.all (typePosOk content)

/-!
Analyzer cache and `DiffAnalyzer._get_or_create_analyzer`.  The
`self.analyzers` dict becomes an insertion-ordered association list threaded
through the diff walk.
-/

/-- `pathlib.Path(p).suffix.lower()`: the extension (with dot) of the final
path component, empty when the last dot is the first or last character of
the name, lower-cased. -/
def pySuffix (p : String) : String :=
  let name := (pySplit p "/").getLastD ""
  let cs := name.data
  let dotIdxs := (List.range cs.length).filter (fun i => cs.getD i ' ' = '.')
  match dotIdxs.getLast? with
  | none => ""
  | some i =>
    if 0 < i ∧ i + 1 < cs.length then pyToLower (String.mk (cs.drop i)) else ""

/-- `key = cache_key if cache_key else file_path` (an empty cache key is
falsy and falls back to the file path). -/
def cacheKeyOf (file_path : String) (cache_key : Option String) : String :=
  match cache_key with
  | some k => if k ≠ "" then k else file_path
  | none => file_path

def Cache : Type := List (String × LanguageAnalyzerState)

def lookupCache : Cache → String → Option LanguageAnalyzerState
  | [], _ => none
  | (k, a) :: rest, key => if k = key then some a else lookupCache rest key

/-- `self.analyzers[key] = analyzer` on the association list. -/
def insertCache : Cache → String → LanguageAnalyzerState → Cache
  | [], k, a => [(k, a)]
  | (k', a') :: rest, k, a =>
    if k' = k then (k, a) :: rest else (k', a') :: insertCache rest k a

/-- The external collaborators of the program, as oracles:
`javalang_available` is the `JAVALANG_AVAILABLE` import flag; `readFile`
models the filesystem read (`None` for not-found or a read error);
`gitOldContent` models `_get_old_file_content`'s `git show HEAD:path` call
(`None` for any unavailability, including timeout and tool absence);
`pyAst` models `ast.parse` (`None` for a `SyntaxError`); `javaAst` models
`javalang.parse.parse` (`None` for a `JavaSyntaxError`). -/
structure DiffEnv where
  javalang_available : Bool
  readFile : String → Option String
  gitOldContent : String → Option String
  pyAst : String → Option PyNode
  javaAst : String → Option JavaFile

/-- `DiffAnalyzer._get_or_create_analyzer`.  Returns the resolved analyzer
(if any), the updated cache, and — so that the operational cache guarantees
can be stated — a flag recording whether this call invoked `parse` on a
freshly constructed analyzer. -/
def get_or_create_analyzer (env : DiffEnv) (analyzers : Cache)
    (file_path : String) (content : Option String) (cache_key : Option String) :
    Option LanguageAnalyzerState × Cache × Bool :=
  let key := cacheKeyOf file_path cache_key
  match lookupCache analyzers key with
  | some a => (some a, analyzers, false)
  | none =>
    let file_content? :=
      match content with
      | some c => some c
      | none => env.readFile file_path
    match file_content? with
    | none => (none, analyzers, false)
    | some file_content =>
      let suffix := pySuffix file_path
      if suffix = ".py" then
        match env.pyAst file_content with
        | some tree =>
          let a := pythonAnalyzerOf file_path file_content tree
          (some a, insertCache analyzers key a, true)
        | none => (none, analyzers, true)
      else if suffix = ".java" then
        if env.javalang_available then
          match env.javaAst file_content with
          | some jf =>
            let a := javaAnalyzerOf file_path file_content jf
            (some a, insertCache analyzers key a, true)
          | none => (none, analyzers, true)
        else (none, analyzers, false)
      else (none, analyzers, false)

/-!
The diff walk: `DiffAnalyzer.analyze`.
-/

/-- The `DiffChange` dataclass. -/
structure DiffChange where
  file_path : String
  line_num : Nat
  content : String
  «structure» : Option CodeStructure
  change_type : String

/-- Python `line.startswith(p)`. -/
def startsWithStr (s p : String) : Bool := p.data.isPrefixOf s.data

/-- Truthiness of an `Optional[str]`: `None` and the empty string are falsy. -/
def pyTruthyStr : Option String → Bool
  | none => false
  | some s => s ≠ ""

/-- `changes.setdefault(file, []).append(change)` in effect: append to the
file's list, creating the (insertion-ordered) entry on first use. -/
def dictAppend (d : List (String × List DiffChange)) (k : String)
    (c : DiffChange) : List (String × List DiffChange) :=
  match d with
  | [] => [(k, [c])]
  | (k', cs) :: rest =>
    if k' = k then (k', cs ++ [c]) :: rest else (k', cs) :: dictAppend rest k c

def digitsToNat (ds : List Char) : Nat :=
  ds.foldl (fun acc c => acc * 10 + (c.toNat - '0'.toNat)) 0

def takeDigits (cs : List Char) : List Char × List Char :=
  (cs.takeWhile Char.isDigit, cs.dropWhile Char.isDigit)

def skipComma : List Char → List Char
  | ',' :: rest => rest
  | cs => cs

/-- `re.match(r'@@ -(\d+),?\d* \+(\d+),?\d* @@', line)`, determinized: the
greedy `\d+` takes the longest digit run (giving the captured group), `,?`
takes a comma exactly when one follows (skipping it could only make the
following literal space fail), `\d*` the longest following digit run.
`re.match` anchors at the start and allows trailing text. -/
def parseHunkHeader (line : String) : Option (Nat × Nat) :=
  match line.data with
  | '@' :: '@' :: ' ' :: '-' :: r1 =>
    match takeDigits r1 with
    | (d1, r2) =>
      if d1.isEmpty then none
      else
        match takeDigits (skipComma r2) with
        | (_, r3) =>
          match r3 with
          | ' ' :: '+' :: r4 =>
            match takeDigits r4 with
            | (d2, r5) =>
              if d2.isEmpty then none
              else
                match takeDigits (skipComma r5) with
                | (_, r6) =>
                  match r6 with
                  | ' ' :: '@' :: '@' :: _ => some (digitsToNat d1, digitsToNat d2)
                  | _ => none
          | _ => none
  | _ => none

/-- The path parsed from an old-file header: `line.split('---')[1].strip()`,
with a leading `a/` stripped. -/
def old_header_path (line : String) : String :=
  let p := pyStrip ((pySplit line "---").getD 1 "")
  if startsWithStr p "a/" then p.drop 2 else p

/-- `DIFF_FILE_PREFIX = 'b/'`. -/
def DIFF_FILE_PREFIX : String := "b/"

/-- The path parsed from a new-file header: `line.split('+++')[1].strip()`,
with a leading `b/` stripped. -/
def new_header_path (line : String) : String :=
  let p := pyStrip ((pySplit line "+++").getD 1 "")
  if startsWithStr p DIFF_FILE_PREFIX then p.drop DIFF_FILE_PREFIX.length else p

/-- The old-analyzer resolution of the `'---'` branch: fetch the old content
via git; when it is truthy, build/fetch the analyzer under the
`"{path}:old"` cache key; otherwise no old analyzer (graceful fallback). -/
def resolve_old_analyzer (env : DiffEnv) (analyzers : Cache) (p : String) :
    Option LanguageAnalyzerState × Cache :=
  match env.gitOldContent p with
  | some old_content =>
    if old_content ≠ "" then
      match get_or_create_analyzer env analyzers p (some old_content) (some (p ++ ":old")) with
      | (a, cache, _) => (a, cache)
    else (none, analyzers)
  | none => (none, analyzers)

/-- The mutable locals of `DiffAnalyzer.analyze`, plus the `self.analyzers`
cache it reads and writes through `_get_or_create_analyzer`. -/
structure AnalyzeState where
  changes : List (String × List DiffChange)
  current_file : Option String
  current_file_old : Option String
  current_line_new : Nat
  current_line_old : Nat
  current_analyzer_new : Option LanguageAnalyzerState
  current_analyzer_old : Option LanguageAnalyzerState
  analyzers : Cache

def initState : AnalyzeState :=
  { changes := [], current_file := none, current_file_old := none
    current_line_new := 0, current_line_old := 0
    current_analyzer_new := none, current_analyzer_old := none, analyzers := [] }

/-- The `'---'` branch of the loop body. -/
def process_old_header (env : DiffEnv) (st : AnalyzeState) (line : String) :
    AnalyzeState :=
  let p := old_header_path line
  let r := resolve_old_analyzer env st.analyzers p
  { st with current_file_old := some p, current_analyzer_old := r.1, analyzers := r.2 }

/-- The `'+++'` branch: resolve the new analyzer; if no old analyzer was
resolved and an old path was seen, fall back to the new analyzer for
deletion lookups. -/
def process_new_header (env : DiffEnv) (st : AnalyzeState) (line : String) :
    AnalyzeState :=
  let file_path := new_header_path line
  let r := get_or_create_analyzer env st.analyzers file_path none none
  let analyzer_old :=
    if st.current_analyzer_old.isNone && pyTruthyStr st.current_file_old then r.1
    else st.current_analyzer_old
  { st with current_file := some file_path, current_analyzer_new := r.1
            analyzers := r.2.1, current_analyzer_old := analyzer_old }

/-- The added-line branch: emit a `'+'` change at the new-line counter when
both a (truthy) current file and a new analyzer are present, then advance
the new-line counter. -/
def process_addition (st : AnalyzeState) (line : String) : AnalyzeState :=
  let st1 :=
    match st.current_file, st.current_analyzer_new with
    | some f, some analyzer =>
      if f ≠ "" then
        let s := get_structure_at_line analyzer st.current_line_new
        let change : DiffChange := ⟨f, st.current_line_new, line.drop 1, s, "+"⟩
        { st with changes := dictAppend st.changes f change }
      else st
    | _, _ => st
  { st1 with current_line_new := st1.current_line_new + 1 }

/-- The deleted-line branch: emit a `'-'` change at the old-line counter when
both a (truthy) current file and an old analyzer are present, then advance
the old-line counter. -/
def process_deletion (st : AnalyzeState) (line : String) : AnalyzeState :=
  let st1 :=
    match st.current_file, st.current_analyzer_old with
    | some f, some analyzer =>
      if f ≠ "" then
        let s := get_structure_at_line analyzer st.current_line_old
        let change : DiffChange := ⟨f, st.current_line_old, line.drop 1, s, "-"⟩
        { st with changes := dictAppend st.changes f change }
      else st
    | _, _ => st
  { st1 with current_line_old := st1.current_line_old + 1 }

/-- The loop body of `DiffAnalyzer.analyze` for one physical diff line. -/
def step (env : DiffEnv) (st : AnalyzeState) (line : String) : AnalyzeState :=
  if startsWithStr line "---" = true then process_old_header env st line
  else if startsWithStr line "+++" = true then process_new_header env st line
  else if startsWithStr line "@@" = true then
    match parseHunkHeader line with
    | some (o, nw) => { st with current_line_old := o, current_line_new := nw }
    | none => st
  else if startsWithStr line "+" = true then process_addition st line
  else if startsWithStr line "-" = true then process_deletion st line
  else if startsWithStr line "\\" = true then st
  else { st with current_line_new := st.current_line_new + 1
                 current_line_old := st.current_line_old + 1 }

/-- `DiffAnalyzer.analyze` as a state fold over `diff_text.split('\n')`. -/
def analyzeState (env : DiffEnv) (diff_text : String) : AnalyzeState :=
  (pySplit diff_text "\n").foldl (step env) initState

/-- The return value of `DiffAnalyzer.analyze`: the per-file change lists. -/
def analyze (env : DiffEnv) (diff_text : String) :
    List (String × List DiffChange) :=
  (analyzeState env diff_text).changes

/-- The reformatting-collapse test of `ResultPrinter._print_file_changes`
(lines 1145-1155): within one structure group, the changes at one line
number are displayed as a single context line exactly when there are two of
them, one `'+'` and one `'-'`, with equal `rstrip`ped contents. -/
def printerCollapsesToContext (changes_at_line : List DiffChange) : Bool :=
  if changes_at_line.length = 2 then
    let contents := changes_at_line.map (fun c => pyRstrip c.content)
    let types := changes_at_line.map (fun c => c.change_type)
    types.contains "+" && types.contains "-"
      && (contents.getD 0 "" == contents.getD 1 "")
  else false

/-- Every change record carries change type `'+'` or `'-'`. -/
def ChangesOk (changes : List (String × List DiffChange)) : Prop :=
  ∀ pr ∈ changes, ∀ r ∈ pr.2, r.change_type = "+" ∨ r.change_type = "-"

/-!
Concrete fixtures used by witnesses and counterexamples.
-/

/-- An environment with nothing available. -/
def envTrivial : DiffEnv :=
  { javalang_available := false, readFile := fun _ => none
    gitOldContent := fun _ => none, pyAst := fun _ => none, javaAst := fun _ => none }

/-- A Python module whose only statement has no body (e.g. `x = 1`): no
structures are extracted. -/
def emptyModule : PyNode := .other [.leaf]

/-- Environment for the reformatting scenario: `t.py` exists in both
versions (old content `"x "` with a trailing space, new content `"x"`), both
parse to a structure-free module. -/
def envC2 : DiffEnv :=
  { javalang_available := false
    readFile := fun p => if p = "t.py" then some "x" else none
    gitOldContent := fun p => if p = "t.py" then some "x " else none
    pyAst := fun c => if c = "x" ∨ c = "x " then some emptyModule else none
    javaAst := fun _ => none }

/-- A diff with a deletion and an addition at line 1 whose contents differ
only in trailing whitespace. -/
def diffC2 : String :=
  "--- a/t.py\n+++ b/t.py\n@@ -1,1 +1,1 @@\n-x \n+x"

/-- Environment for the parse-failure scenario: `bad.py` exists but fails to
parse, `good.py` parses to a structure-free module; no git history. -/
def envC3 : DiffEnv :=
  { javalang_available := false
    readFile := fun p =>
      if p = "bad.py" then some "def (" else if p = "good.py" then some "x = 1" else none
    gitOldContent := fun _ => none
    pyAst := fun c => if c = "x = 1" then some emptyModule else none
    javaAst := fun _ => none }

/-- A diff touching the failing file first, then the parsable one. -/
def diffC3 : String :=
  "--- a/bad.py\n+++ b/bad.py\n@@ -1,1 +1,1 @@\n+y\n--- a/good.py\n+++ b/good.py\n@@ -1,1 +1,1 @@\n+z"

/-- Environment for the Java parse-failure case: `javalang` is importable,
`Bad.java` is readable but fails to parse. -/
def envC3java : DiffEnv :=
  { javalang_available := true
    readFile := fun p => if p = "Bad.java" then some "class (" else none
    gitOldContent := fun _ => none
    pyAst := fun _ => none
    javaAst := fun _ => none }

/-- The hunk of the counter scenario: header `@@ -10,3 +10,4 @@` followed by
1 context line, 1 deletion, 1 addition and 2 context lines. -/
def diffC4 : String :=
  "@@ -10,3 +10,4 @@\n ctx\n-del\n+add\n ctx\n ctx"

/-- Environment for the fallback scenario: the old content of `p.py` is
unavailable, the new file parses to a structure-free module. -/
def envC5 : DiffEnv :=
  { javalang_available := false
    readFile := fun p => if p = "p.py" then some "x" else none
    gitOldContent := fun _ => none
    pyAst := fun c => if c = "x" then some emptyModule else none
    javaAst := fun _ => none }

/-- State after the old-file header under `envC5`. -/
def stC5a : AnalyzeState := step envC5 initState "--- a/p.py"

/-- State after the new-file header under `envC5`. -/
def stC5b : AnalyzeState := step envC5 stC5a "+++ b/p.py"

/-- The analyzer `envC5` resolves for `p.py`. -/
def analyzerC5 : LanguageAnalyzerState := pythonAnalyzerOf "p.py" "x" emptyModule

/-- Environment for the cache scenario: `bad.py` is readable but never
parses. -/
def envC8 : DiffEnv :=
  { javalang_available := false
    readFile := fun p => if p = "bad.py" then some "(" else none
    gitOldContent := fun _ => none
    pyAst := fun _ => none, javaAst := fun _ => none }

/-- A class spanning lines 1-10. -/
def structC : CodeStructure := .mk "C" .CLASS 1 10 none [] [] ""

/-- A method spanning lines 2-5 inside `structC`. -/
def structF : CodeStructure := .mk "f" .METHOD 2 5 (some structC) [] [] ""

def structsC1 : List CodeStructure := [structC, structF]

/-- The one-line brace-delimited method of the C6 scenario. -/
def lineC6 : String := "int f() \x7b return 1; \x7d"

/-- A Java method structure declared on line 1 (placeholder end span, as
before the end-line pass). -/
def structC6 : CodeStructure := .mk "f" .METHOD 1 (1 + DEFAULT_METHOD_LINES) none [] [] "int"

/-- A span-correct one-function Python module. -/
def treeC7 : PyNode := .other [.funcDef "f" 1 (some 3) [] ["x"] none []]

/-- A one-class Java parse result with the class declared on line 1. -/
def javaFileC7 : JavaFile :=
  { package_name := ""
    classes := [{ name := "A", position := some 1, modifiers := ["public"]
                  ancestry := [], constructors := [], methods := [] }]
    interfaces := [], enums := [] }

def contentC7 : String := "public class A \x7b\n\x7d"

/-- A diff body line that is the deletion of a line starting with `--`. -/
def lineC9 : String := "---x"

/-!
Proof-support predicates.
-/

/-- Relation between a line map and the structures already folded into it:
absent lines are covered by no structure, and each present entry is a
containing structure of minimal `line_count`. -/
def MapInv (m : LineMap) (processed : List CodeStructure) : Prop :=
  ∀ n : Nat,
    (m n = none → ∀ s ∈ processed, ¬ containsLine s n) ∧
    (∀ s, m n = some s → s ∈ processed ∧ containsLine s n ∧
      ∀ t ∈ processed, containsLine t n → s.line_count ≤ t.line_count)

/-- Every structure in the list has `start_line ≤ end_line`. -/
def StartLE (l : List CodeStructure) : Prop :=
  ∀ s ∈ l, s.start_line ≤ s.end_line

/-!
Line-map lemmas (towards C1).
-/

theorem mem_structLineRange (s : CodeStructure) (n : Nat) :
    n ∈ structLineRange s ↔ containsLine s n := by
  rw [structLineRange, List.mem_range'_1, containsLine]
  omega

theorem mergeEntry_idem (o : Option CodeStructure) (s : CodeStructure) :
    mergeEntry (mergeEntry o s) s = mergeEntry o s := by
  cases o with
  | none => simp [mergeEntry]
  | some e =>
    by_cases h : s.line_count < e.line_count
    · simp [mergeEntry, h]
    · simp [mergeEntry, h]

theorem mergeEntry_ne_none (o : Option CodeStructure) (s : CodeStructure) :
    mergeEntry o s ≠ none := by
  cases o with
  | none => simp [mergeEntry]
  | some e =>
    by_cases h : s.line_count < e.line_count
    · simp [mergeEntry, h]
    · simp [mergeEntry, h]

theorem foldl_insertLine_not_mem (s : CodeStructure) (L : List Nat) (m : LineMap)
    (n : Nat) (h : n ∉ L) :
    (L.foldl (fun m line => insertLine m line s) m) n = m n := by
  induction L generalizing m with
  | nil => rfl
  | cons l rest ih =>
    have hn : ¬ n = l ∧ n ∉ rest := by simpa [not_or] using h
    simp only [List.foldl_cons]
    rw [ih _ hn.2]
    simp [insertLine, hn.1]

theorem foldl_insertLine_mem (s : CodeStructure) (L : List Nat) (m : LineMap)
    (n : Nat) (h : n ∈ L) :
    (L.foldl (fun m line => insertLine m line s) m) n = mergeEntry (m n) s := by
  induction L generalizing m with
  | nil => cases h
  | cons l rest ih =>
    simp only [List.foldl_cons]
    by_cases hl : n = l
    · subst hl
      by_cases hr : n ∈ rest
      · rw [ih _ hr]
        simp [insertLine, mergeEntry_idem]
      · rw [foldl_insertLine_not_mem s rest _ n hr]
        simp [insertLine]
    · have hr : n ∈ rest := by
        rcases List.mem_cons.mp h with h1 | h2
        · exact absurd h1 hl
        · exact h2
      rw [ih _ hr]
      simp [insertLine, hl]

theorem addStructLines_apply (m : LineMap) (s : CodeStructure) (n : Nat) :
    addStructLines m s n =
      if containsLine s n then mergeEntry (m n) s else m n := by
  by_cases h : containsLine s n
  · rw [if_pos h]
    exact foldl_insertLine_mem s _ m n ((mem_structLineRange s n).mpr h)
  · rw [if_neg h]
    exact foldl_insertLine_not_mem s _ m n (fun hm => h ((mem_structLineRange s n).mp hm))

theorem mapInv_add (m : LineMap) (ps : List CodeStructure) (s : CodeStructure)
    (h : MapInv m ps) : MapInv (addStructLines m s) (ps ++ [s]) := by
  intro n
  have happ := addStructLines_apply m s n
  by_cases hc : containsLine s n
  · rw [if_pos hc] at happ
    constructor
    · intro hnone
      rw [happ] at hnone
      exact absurd hnone (mergeEntry_ne_none _ s)
    · intro u hu
      rw [happ] at hu
      cases hmn : m n with
      | none =>
        rw [hmn] at hu
        simp [mergeEntry] at hu
        subst hu
        refine ⟨by simp, hc, ?_⟩
        intro t ht hct
        rcases List.mem_append.mp ht with h1 | h2
        · exact absurd hct ((h n).1 hmn t h1)
        · simp at h2; subst h2; exact le_refl _
      | some e =>
        obtain ⟨he_mem, he_c, he_min⟩ := (h n).2 e hmn
        rw [hmn] at hu
        by_cases hlt : s.line_count < e.line_count
        · rw [mergeEntry, if_pos hlt] at hu
          injection hu with hu
          subst hu
          refine ⟨by simp, hc, ?_⟩
          intro t ht hct
          rcases List.mem_append.mp ht with h1 | h2
          · exact le_of_lt (lt_of_lt_of_le hlt (he_min t h1 hct))
          · simp at h2; subst h2; exact le_refl _
        · rw [mergeEntry, if_neg hlt] at hu
          injection hu with hu
          subst hu
          refine ⟨List.mem_append.mpr (Or.inl he_mem), he_c, ?_⟩
          intro t ht hct
          rcases List.mem_append.mp ht with h1 | h2
          · exact he_min t h1 hct
          · simp at h2; subst h2; omega
  · rw [if_neg hc] at happ
    constructor
    · intro hnone
      rw [happ] at hnone
      intro t ht hct
      rcases List.mem_append.mp ht with h1 | h2
      · exact (h n).1 hnone t h1 hct
      · simp at h2; subst h2; exact hc hct
    · intro u hu
      rw [happ] at hu
      obtain ⟨hm, hcu, hmin⟩ := (h n).2 u hu
      refine ⟨List.mem_append.mpr (Or.inl hm), hcu, ?_⟩
      intro t ht hct
      rcases List.mem_append.mp ht with h1 | h2
      · exact hmin t h1 hct
      · simp at h2; subst h2; exact absurd hct hc

theorem mapInv_foldl (rest : List CodeStructure) :
    ∀ (ps : List CodeStructure) (m : LineMap), MapInv m ps →
      MapInv (rest.foldl addStructLines m) (ps ++ rest) := by
  induction rest with
  | nil => intro ps m h; simpa using h
  | cons s rs ih =>
    intro ps m h
    have h2 := ih (ps ++ [s]) (addStructLines m s) (mapInv_add m ps s h)
    simpa using h2

theorem buildLineMap_inv (structures : List CodeStructure) :
    MapInv (buildLineMap structures) structures := by
  have h0 : MapInv emptyLineMap [] := by
    intro n
    constructor
    · intro _ s hs; cases hs
    · intro s hs; exact absurd hs (by simp [emptyLineMap])
  simpa using mapInv_foldl structures [] emptyLineMap h0

/-- C1: for every line number `n`, if any extracted structure's range
contains `n`, `get_structure_at_line` (on an analyzer whose line map was
built from its structures, i.e. the state after a successful parse) returns
a structure containing `n` whose `line_count` is minimal among all
structures containing `n`; if no structure contains `n`, it returns
`none`. -/
theorem c1_get_structure_at_line_minimal (structures : List CodeStructure)
    (fp content : String) (n : Nat) :
    ((∃ s ∈ structures, containsLine s n) →
      ∃ s, get_structure_at_line (analyzerOfStructures fp content structures) n = some s ∧
        s ∈ structures ∧ containsLine s n ∧
        ∀ t ∈ structures, containsLine t n → s.line_count ≤ t.line_count) ∧
    ((¬ ∃ s ∈ structures, containsLine s n) →
      get_structure_at_line (analyzerOfStructures fp content structures) n = none) := by
  have hinv := buildLineMap_inv structures
  cases hmap : buildLineMap structures n with
  | some u =>
    obtain ⟨hm, hcu, hmin⟩ := (hinv n).2 u hmap
    constructor
    · intro _
      exact ⟨u, by simp [get_structure_at_line, analyzerOfStructures, hmap], hm, hcu, hmin⟩
    · intro hno
      exact absurd ⟨u, hm, hcu⟩ hno
  | none =>
    have hnone := (hinv n).1 hmap
    constructor
    · rintro ⟨s, hs, hcs⟩
      exact absurd hcs (hnone s hs)
    · intro _
      have hfil : structures.filter (fun s => decide (containsLine s n)) = [] := by
        rw [List.filter_eq_nil_iff]
        intro a ha
        simp [hnone a ha]
      simp [get_structure_at_line, analyzerOfStructures, hmap, hfil, pyMinByLineCount]

/-- Witness for C1: on a class spanning lines 1-10 containing a method
spanning lines 2-5, line 3 resolves to the smaller (method) structure. -/
theorem c1_witness :
    ∃ s, get_structure_at_line (analyzerOfStructures "t.py" "" structsC1) 3 = some s ∧
      s ∈ structsC1 ∧ containsLine s 3 ∧
      ∀ t ∈ structsC1, containsLine t 3 → s.line_count ≤ t.line_count :=
  (c1_get_structure_at_line_minimal structsC1 "t.py" "" 3).1
    ⟨structF, by simp [structsC1], by decide⟩

/-!
First-character lemmas about `startsWithStr`, used to discharge the branch
order of `step`.
-/

theorem firstChar_of_startsWith (l p : String) (c : Char) (cs : List Char)
    (hp : p.data = c :: cs) (h : startsWithStr l p = true) :
    ∃ t, l.data = c :: t := by
  rw [startsWithStr, hp] at h
  cases hd : l.data with
  | nil => rw [hd] at h; simp [List.isPrefixOf] at h
  | cons b t =>
    rw [hd] at h
    simp only [List.isPrefixOf, Bool.and_eq_true, beq_iff_eq] at h
    exact ⟨t, by rw [h.1]⟩

theorem startsWith_false_of_head_ne (l p : String) (b : Char) (t : List Char)
    (hl : l.data = b :: t) (c : Char) (cs : List Char) (hp : p.data = c :: cs)
    (hne : c ≠ b) : startsWithStr l p = false := by
  rw [startsWithStr, hp, hl]
  simp only [List.isPrefixOf, Bool.and_eq_false_iff]
  exact Or.inl (by simpa using hne)

/-- C2 counterexample: an addition and a deletion on the same line number,
in the same (absent) structure group, with byte-identical trimmed contents,
are reported by `analyze` as TWO change records for `t.py` — the core's
output contains no merged single record. -/
theorem c2_counterexample :
    (analyze envC2 diffC2).map (fun pr => (pr.1, pr.2.length)) = [("t.py", 2)] := rfl

/-- C2 amended: `analyze` keeps both the deletion and the addition record;
the pair is collapsed to a single context-equivalent line only by
`ResultPrinter`'s rendering test, which holds for exactly this pair. -/
theorem c2_collapse_is_printer_only :
    analyze envC2 diffC2 =
      [("t.py", [⟨"t.py", 1, "x ", none, "-"⟩, ⟨"t.py", 1, "x", none, "+"⟩])] ∧
    printerCollapsesToContext
      [⟨"t.py", 1, "x ", none, "-"⟩, ⟨"t.py", 1, "x", none, "+"⟩] = true :=
  ⟨rfl, rfl⟩

/-- C3 counterexample: `bad.py` fails to parse, and the diff contains an
added line for it, yet `analyze`'s output has no record at all for
`bad.py` — rather than a record with a `None` structure. -/
theorem c3_counterexample :
    ¬ ∃ pr ∈ analyze envC3 diffC3, pr.1 = "bad.py" := by
  rintro ⟨pr, hmem, hname⟩
  have heq : analyze envC3 diffC3 = [("good.py", [⟨"good.py", 1, "z", none, "+"⟩])] := rfl
  rw [heq] at hmem
  simp at hmem
  rw [hmem] at hname
  exact absurd hname (by decide)

/-- C3 amended: when parsing of one file/version fails (Python or Java),
no analyzer is created or cached for that version, so it contributes no
structures; each diff line that would be resolved against the missing
analyzer — an addition with no new analyzer, a deletion with no old
analyzer — yields no change record at all (it is skipped, only its line
counter advancing) rather than a record with a `None` structure; and the
walk is total and continues over other files, as in the two-file run where
the parsable file's record is still produced. -/
theorem c3_parse_failure_skips_records :
    (∀ (env : DiffEnv) (cache : Cache) (fp : String) (content : Option String)
      (ck : Option String) (fc : String),
      lookupCache cache (cacheKeyOf fp ck) = none →
      (content = some fc ∨ (content = none ∧ env.readFile fp = some fc)) →
      pySuffix fp = ".py" → env.pyAst fc = none →
      get_or_create_analyzer env cache fp content ck = (none, cache, true)) ∧
    (∀ (env : DiffEnv) (cache : Cache) (fp : String) (content : Option String)
      (ck : Option String) (fc : String),
      lookupCache cache (cacheKeyOf fp ck) = none →
      (content = some fc ∨ (content = none ∧ env.readFile fp = some fc)) →
      pySuffix fp = ".java" → env.javalang_available = true → env.javaAst fc = none →
      get_or_create_analyzer env cache fp content ck = (none, cache, true)) ∧
    (∀ (env : DiffEnv) (st : AnalyzeState) (line : String),
      startsWithStr line "+" = true → startsWithStr line "+++" = false →
      st.current_analyzer_new = none →
      (step env st line).changes = st.changes ∧
      (step env st line).current_line_new = st.current_line_new + 1 ∧
      (step env st line).current_line_old = st.current_line_old) ∧
    (∀ (env : DiffEnv) (st : AnalyzeState) (line : String),
      startsWithStr line "-" = true → startsWithStr line "---" = false →
      st.current_analyzer_old = none →
      (step env st line).changes = st.changes ∧
      (step env st line).current_line_old = st.current_line_old + 1 ∧
      (step env st line).current_line_new = st.current_line_new) ∧
    analyze envC3 diffC3 = [("good.py", [⟨"good.py", 1, "z", none, "+"⟩])] := by
  refine ⟨?_, ?_, ?_, ?_, rfl⟩
  · intro env cache fp content ck fc hl hc hpy hast
    rcases hc with hc | ⟨hc1, hc2⟩
    · subst hc
      simp [get_or_create_analyzer, hl, hpy, hast]
    · subst hc1
      simp [get_or_create_analyzer, hl, hc2, hpy, hast]
  · intro env cache fp content ck fc hl hc hjv hav hast
    rcases hc with hc | ⟨hc1, hc2⟩
    · subst hc
      simp [get_or_create_analyzer, hl, hjv, hav, hast]
    · subst hc1
      simp [get_or_create_analyzer, hl, hc2, hjv, hav, hast]
  · intro env st line h hp3 hana
    obtain ⟨t, ht⟩ := firstChar_of_startsWith line "+" '+' [] rfl h
    have hdash : startsWithStr line "---" = false :=
      startsWith_false_of_head_ne line "---" '+' t ht '-' ['-', '-'] rfl (by decide)
    have hat : startsWithStr line "@@" = false :=
      startsWith_false_of_head_ne line "@@" '+' t ht '@' ['@'] rfl (by decide)
    cases hcf : st.current_file with
    | none => simp [step, h, hp3, hdash, hat, process_addition, hcf, hana]
    | some f => simp [step, h, hp3, hdash, hat, process_addition, hcf, hana]
  · intro env st line h hdash hana
    obtain ⟨t, ht⟩ := firstChar_of_startsWith line "-" '-' [] rfl h
    have hplus : startsWithStr line "+++" = false :=
      startsWith_false_of_head_ne line "+++" '-' t ht '+' ['+', '+'] rfl (by decide)
    have hat : startsWithStr line "@@" = false :=
      startsWith_false_of_head_ne line "@@" '-' t ht '@' ['@'] rfl (by decide)
    have hplus1 : startsWithStr line "+" = false :=
      startsWith_false_of_head_ne line "+" '-' t ht '+' [] rfl (by decide)
    cases hcf : st.current_file with
    | none => simp [step, h, hdash, hplus, hat, hplus1, process_deletion, hcf, hana]
    | some f => simp [step, h, hdash, hplus, hat, hplus1, process_deletion, hcf, hana]

/-- Witness for C3: the failing Python and Java files produce no analyzer
and cache nothing; an addition with no new analyzer and a deletion with no
old analyzer are skipped, only their counters advancing. -/
theorem c3_witness :
    get_or_create_analyzer envC3 [] "bad.py" none none = (none, [], true) ∧
    get_or_create_analyzer envC3java [] "Bad.java" none none = (none, [], true) ∧
    ((step envTrivial initState "+y").changes = initState.changes ∧
      (step envTrivial initState "+y").current_line_new = initState.current_line_new + 1 ∧
      (step envTrivial initState "+y").current_line_old = initState.current_line_old) ∧
    ((step envTrivial initState "-y").changes = initState.changes ∧
      (step envTrivial initState "-y").current_line_old = initState.current_line_old + 1 ∧
      (step envTrivial initState "-y").current_line_new = initState.current_line_new) :=
  ⟨c3_parse_failure_skips_records.1 envC3 [] "bad.py" none none "def (" rfl
      (Or.inr ⟨rfl, rfl⟩) rfl rfl,
   c3_parse_failure_skips_records.2.1 envC3java [] "Bad.java" none none "class (" rfl
      (Or.inr ⟨rfl, rfl⟩) rfl rfl rfl,
   c3_parse_failure_skips_records.2.2.1 envTrivial initState "+y" rfl rfl rfl,
   c3_parse_failure_skips_records.2.2.2.1 envTrivial initState "-y" rfl rfl rfl⟩

/-- C4 counterexample: after the hunk `@@ -10,3 +10,4 @@` with 1 context,
1 deletion, 1 addition and 2 context lines, the old-line counter is 14
(the body consumes 4 old lines: context and deletion lines each advance
it), not 13. -/
theorem c4_counterexample :
    (analyzeState envTrivial diffC4).current_line_old = 14 ∧
    ¬ (analyzeState envTrivial diffC4).current_line_old = 13 :=
  ⟨rfl, by decide⟩

/-- C4 amended: after that hunk the new-line counter is 14 and the old-line
counter is also 14. -/
theorem c4_counters_after_hunk :
    (analyzeState envTrivial diffC4).current_line_new = 14 ∧
    (analyzeState envTrivial diffC4).current_line_old = 14 :=
  ⟨rfl, rfl⟩

/-- C5: when the old-file content is unavailable (or empty, which Python
treats as falsy) the old-file header leaves no old analyzer; the new-file
header then falls back to the new analyzer for deletion lookups; and
deletion lines are resolved against whatever analyzer sits in the old slot.
Together: with old content unavailable, deletions are resolved against the
new-file analyzer, and every branch is total — the condition is never
fatal. -/
theorem c5_deletion_fallback :
    (∀ (env : DiffEnv) (st : AnalyzeState) (line : String),
      startsWithStr line "---" = true →
      (env.gitOldContent (old_header_path line) = none ∨
        env.gitOldContent (old_header_path line) = some "") →
      (step env st line).current_analyzer_old = none) ∧
    (∀ (env : DiffEnv) (st : AnalyzeState) (line : String),
      startsWithStr line "+++" = true →
      st.current_analyzer_old = none →
      pyTruthyStr st.current_file_old = true →
      (step env st line).current_analyzer_old = (step env st line).current_analyzer_new) ∧
    (∀ (env : DiffEnv) (st : AnalyzeState) (line f : String)
      (a : LanguageAnalyzerState),
      startsWithStr line "-" = true → startsWithStr line "---" = false →
      st.current_file = some f → f ≠ "" → st.current_analyzer_old = some a →
      (step env st line).changes =
        dictAppend st.changes f
          ⟨f, st.current_line_old, line.drop 1,
            get_structure_at_line a st.current_line_old, "-"⟩) := by
  refine ⟨?_, ?_, ?_⟩
  · intro env st line h hold
    rcases hold with hold | hold
    · simp [step, h, process_old_header, resolve_old_analyzer, hold]
    · simp [step, h, process_old_header, resolve_old_analyzer, hold]
  · intro env st line h hnone htruthy
    obtain ⟨t, ht⟩ := firstChar_of_startsWith line "+++" '+' ['+', '+'] rfl h
    have hdash : startsWithStr line "---" = false :=
      startsWith_false_of_head_ne line "---" '+' t ht '-' ['-', '-'] rfl (by decide)
    simp [step, h, hdash, process_new_header, hnone, htruthy]
  · intro env st line f a h hdash hfile hf hana
    obtain ⟨t, ht⟩ := firstChar_of_startsWith line "-" '-' [] rfl h
    have hplus : startsWithStr line "+++" = false :=
      startsWith_false_of_head_ne line "+++" '-' t ht '+' ['+', '+'] rfl (by decide)
    have hat : startsWithStr line "@@" = false :=
      startsWith_false_of_head_ne line "@@" '-' t ht '@' ['@'] rfl (by decide)
    have hplus1 : startsWithStr line "+" = false :=
      startsWith_false_of_head_ne line "+" '-' t ht '+' [] rfl (by decide)
    simp [step, h, hdash, hplus, hat, hplus1, process_deletion, hfile, hana, hf]

/-- Witness for C5: under `envC5` (no git history for `p.py`) the old-file
header resolves no old analyzer, the new-file header copies the new
analyzer into the old slot, and a deletion line is then resolved with that
analyzer. -/
theorem c5_witness :
    (step envC5 initState "--- a/p.py").current_analyzer_old = none ∧
    (step envC5 stC5a "+++ b/p.py").current_analyzer_old =
      (step envC5 stC5a "+++ b/p.py").current_analyzer_new ∧
    (step envC5 stC5b "-q").changes =
      dictAppend stC5b.changes "p.py"
        ⟨"p.py", stC5b.current_line_old, "q",
          get_structure_at_line analyzerC5 stC5b.current_line_old, "-"⟩ :=
  ⟨c5_deletion_fallback.1 envC5 initState "--- a/p.py" rfl (Or.inl rfl),
   c5_deletion_fallback.2.1 envC5 stC5a "+++ b/p.py" rfl rfl rfl,
   c5_deletion_fallback.2.2 envC5 stC5b "-q" "p.py" analyzerC5 rfl rfl rfl
     (by decide) rfl⟩

theorem setEndLine_end_line (s : CodeStructure) (e : Nat) :
    (s.setEndLine e).end_line = e := by
  cases s; rfl

theorem setEndLine_start_line (s : CodeStructure) (e : Nat) :
    (s.setEndLine e).start_line = s.start_line := by
  cases s; rfl

/-- C6: when the character scan of the structure's start line alone finds
the matching closing brace (as it does for a declaration whose opening and
closing braces both sit on that line), the end-line pass sets
`end_line = start_line`; the fallback estimate is not used. -/
theorem c6_one_line_brace (content : String) (struct : CodeStructure) (l : String)
    (h1 : 1 ≤ struct.start_line)
    (hl : (pySplit content "\n").get? (struct.start_line - 1) = some l)
    (hscan : (scanChars l.data none false 0 false).2.2 = true) :
    (update_structure_end_line content struct).end_line = struct.start_line := by
  obtain ⟨hlt, -⟩ := List.get?_eq_some.mp hl
  have hdrop : (pySplit content "\n").drop (struct.start_line - 1) =
      l :: (pySplit content "\n").drop (struct.start_line - 1 + 1) := by
    rw [List.drop_eq_getElem_cons hlt]
    congr 1
    have := List.get?_eq_getElem? (pySplit content "\n") (struct.start_line - 1)
    rw [this] at hl
    exact (List.getElem?_eq_some.mp hl).choose_spec.symm ▸ rfl
  rw [update_structure_end_line, if_neg (by omega), hdrop]
  rcases hsc : scanChars l.data none false 0 false with ⟨bc, fs, ended⟩
  rw [hsc] at hscan
  simp only at hscan
  rw [scanLines, hsc]
  subst hscan
  simp [setEndLine_end_line]
  omega

/-- Witness for C6: the one-line method declaration of the scenario. -/
theorem c6_witness :
    (update_structure_end_line lineC6 structC6).end_line = structC6.start_line :=
  c6_one_line_brace lineC6 structC6 lineC6 (by decide) rfl (by decide)

theorem scanLines_ge (ls : List String) (bc : Int) (fs : Bool) (i r : Nat)
    (h : scanLines ls bc fs i = some r) : i + 1 ≤ r := by
  induction ls generalizing bc fs i with
  | nil => simp [scanLines] at h
  | cons l rest ih =>
    rw [scanLines] at h
    rcases hsc : scanChars l.data none false bc fs with ⟨bc', fs', ended⟩
    rw [hsc] at h
    cases ended with
    | true => simp at h; omega
    | false =>
      simp at h
      have := ih bc' fs' (i + 1) h
      omega

theorem update_end_line_ge (content : String) (s : CodeStructure)
    (h1 : 1 ≤ s.start_line) (h2 : s.start_line ≤ (pySplit content "\n").length) :
    s.start_line ≤ (update_structure_end_line content s).end_line ∧
    (update_structure_end_line content s).start_line = s.start_line := by
  rw [update_structure_end_line, if_neg (by omega)]
  rcases hsc : scanLines ((pySplit content "\n").drop (s.start_line - 1)) 0 false
      (s.start_line - 1) with - | e
  · simp [setEndLine_end_line, setEndLine_start_line]
    omega
  · have := scanLines_ge _ _ _ _ _ hsc
    simp [setEndLine_end_line, setEndLine_start_line]
    omega

/-- Folding a list of declarations into a structure list preserves
`start_line ≤ end_line` when each step does so for valid declarations. -/
theorem foldl_startLE {α : Type} (f : List CodeStructure → α → List CodeStructure)
    (ok : α → Bool) (l : List α)
    (hf : ∀ acc d, StartLE acc → ok d = true → StartLE (f acc d)) :
    ∀ acc, StartLE acc → l.all ok = true → StartLE (l.foldl f acc) := by
  induction l with
  | nil => intro acc h _; simpa using h
  | cons d rest ih =>
    intro acc h hall
    rw [List.all_cons, Bool.and_eq_true] at hall
    exact ih _ (hf acc d h hall.1) hall.2

theorem process_member_startLE (content : String) (parent : CodeStructure)
    (kind : StructureType) (dl : Nat) (acc : List CodeStructure) (m : JMemberDecl)
    (hacc : StartLE acc) (hm : memberPosOk content m = true) :
    StartLE (process_member content parent kind dl m acc) := by
  rw [process_member]
  cases hp : m.position with
  | none => exact hacc
  | some line =>
    intro s hs
    rcases List.mem_append.mp hs with h | h
    · exact hacc s h
    · simp at h
      subst h
      simp only [memberPosOk, posOk, hp] at hm
      simp at hm
      have := update_end_line_ge content
        (.mk m.name kind line (line + dl) (some parent) m.modifiers m.params m.return_type)
        (by simpa [CodeStructure.start_line] using hm.1)
        (by simpa [CodeStructure.start_line] using hm.2)
      rw [this.2]
      simpa [CodeStructure.start_line] using this.1

theorem process_class_startLE (content : String) (acc : List CodeStructure)
    (d : JTypeDecl) (hacc : StartLE acc) (hd : typePosOk content d = true) :
    StartLE (process_class content acc d) := by
  rw [typePosOk, Bool.and_eq_true, Bool.and_eq_true] at hd
  rw [process_class]
  cases hp : d.position with
  | none => exact hacc
  | some line =>
    have hline : 1 ≤ line ∧ line ≤ (pySplit content "\n").length := by
      have := hd.1.1
      simp only [hp, posOk] at this
      simpa using this
    have hcls := update_end_line_ge content
      (.mk d.name .CLASS line (line + DEFAULT_CLASS_LINES)
        (find_parent_structure acc d.ancestry) d.modifiers [] "")
      (by simpa [CodeStructure.start_line] using hline.1)
      (by simpa [CodeStructure.start_line] using hline.2)
    have hbase : StartLE (acc ++
        [update_structure_end_line content
          (.mk d.name .CLASS line (line + DEFAULT_CLASS_LINES)
            (find_parent_structure acc d.ancestry) d.modifiers [] "")]) := by
      intro s hs
      rcases List.mem_append.mp hs with h | h
      · exact hacc s h
      · simp at h
        subst h
        rw [hcls.2]
        simpa [CodeStructure.start_line] using hcls.1
    refine foldl_startLE _ (memberPosOk content) d.methods
      (fun a m ha hm => process_member_startLE content _ _ _ a m ha hm) _ ?_ hd.2
    exact foldl_startLE _ (memberPosOk content) d.constructors
      (fun a m ha hm => process_member_startLE content _ _ _ a m ha hm) _ hbase hd.1.2

theorem process_interface_startLE (content : String) (acc : List CodeStructure)
    (d : JTypeDecl) (hacc : StartLE acc) (hd : typePosOk content d = true) :
    StartLE (process_interface content acc d) := by
  rw [typePosOk, Bool.and_eq_true, Bool.and_eq_true] at hd
  rw [process_interface]
  cases hp : d.position with
  | none => exact hacc
  | some line =>
    have hline : 1 ≤ line ∧ line ≤ (pySplit content "\n").length := by
      have := hd.1.1
      simp only [hp, posOk] at this
      simpa using this
    have hifc := update_end_line_ge content
      (.mk d.name .INTERFACE line (line + DEFAULT_INTERFACE_LINES) none d.modifiers [] "")
      (by simpa [CodeStructure.start_line] using hline.1)
      (by simpa [CodeStructure.start_line] using hline.2)
    have hbase : StartLE (acc ++
        [update_structure_end_line content
          (.mk d.name .INTERFACE line (line + DEFAULT_INTERFACE_LINES) none d.modifiers [] "")]) := by
      intro s hs
      rcases List.mem_append.mp hs with h | h
      · exact hacc s h
      · simp at h
        subst h
        rw [hifc.2]
        simpa [CodeStructure.start_line] using hifc.1
    exact foldl_startLE _ (memberPosOk content) d.methods
      (fun a m ha hm => process_member_startLE content _ _ _ a m ha hm) _ hbase hd.2

theorem process_enum_startLE (content : String) (acc : List CodeStructure)
    (d : JTypeDecl) (hacc : StartLE acc) (hd : typePosOk content d = true) :
    StartLE (process_enum content acc d) := by
  rw [typePosOk, Bool.and_eq_true, Bool.and_eq_true] at hd
  rw [process_enum]
  cases hp : d.position with
  | none => exact hacc
  | some line =>
    have hline : 1 ≤ line ∧ line ≤ (pySplit content "\n").length := by
      have := hd.1.1
      simp only [hp, posOk] at this
      simpa using this
    have henum := update_end_line_ge content
      (.mk d.name .ENUM line (line + DEFAULT_ENUM_LINES) none d.modifiers [] "")
      (by simpa [CodeStructure.start_line] using hline.1)
      (by simpa [CodeStructure.start_line] using hline.2)
    intro s hs
    rcases List.mem_append.mp hs with h | h
    · exact hacc s h
    · simp at h
      subst h
      rw [henum.2]
      simpa [CodeStructure.start_line] using henum.1

theorem javaStructures_startLE (content : String) (jf : JavaFile)
    (h : javaFilePosOk content jf = true) :
    StartLE (javaAnalyzerStructures content jf) := by
  rw [javaFilePosOk, Bool.and_eq_true, Bool.and_eq_true] at h
  rw [javaAnalyzerStructures]
  refine foldl_startLE _ (typePosOk content) jf.enums
    (fun a d ha hd => process_enum_startLE content a d ha hd) _ ?_ h.2
  refine foldl_startLE _ (typePosOk content) jf.interfaces
    (fun a d ha hd => process_interface_startLE content a d ha hd) _ ?_ h.1.2
  refine foldl_startLE _ (typePosOk content) jf.classes
    (fun a d ha hd => process_class_startLE content a d ha hd) _ ?_ h.1.1
  intro s hs
  cases hs

mutual

theorem visitNode_startLE (n : PyNode) (parent : Option CodeStructure)
    (h : spanOk n = true) : StartLE (visitNode n parent) := by
  cases n with
  | classDef nm l e decs body =>
    rw [spanOk, Bool.and_eq_true] at h
    intro s hs
    simp only [visitNode] at hs
    rcases List.mem_cons.mp hs with h1 | h1
    · subst h1
      simpa [CodeStructure.start_line, CodeStructure.end_line] using of_decide_eq_true h.1
    · exact visitList_startLE body _ h.2 s h1
  | funcDef nm l e decs args rets body =>
    rw [spanOk, Bool.and_eq_true] at h
    intro s hs
    simp only [visitNode] at hs
    rcases List.mem_cons.mp hs with h1 | h1
    · subst h1
      simpa [CodeStructure.start_line, CodeStructure.end_line] using of_decide_eq_true h.1
    · exact visitList_startLE body _ h.2 s h1
  | other body =>
    rw [spanOk] at h
    intro s hs
    simp only [visitNode] at hs
    exact visitList_startLE body parent h s hs
  | leaf =>
    intro s hs
    simp only [visitNode] at hs
    cases hs

theorem visitList_startLE (ns : List PyNode) (parent : Option CodeStructure)
    (h : spanOkList ns = true) : StartLE (visitList ns parent) := by
  cases ns with
  | nil =>
    intro s hs
    simp only [visitList] at hs
    cases hs
  | cons n rest =>
    rw [spanOkList, Bool.and_eq_true] at h
    intro s hs
    simp only [visitList] at hs
    rcases List.mem_append.mp hs with h1 | h1
    · exact visitNode_startLE n parent h.1 s h1
    · exact visitList_startLE rest parent h.2 s h1

end

/-- C7: every structure in an analyzer's list after a successful parse has
`start_line ≤ end_line` — for the Python variant under the native parser's
span guarantee, and for the Java variant under the native parser's
position guarantee (positions are 1-based and within the parsed content),
covering both the brace-scan and the fallback-clamp end lines. -/
theorem c7_start_le_end :
    (∀ (fp content : String) (tree : PyNode), spanOk tree = true →
      ∀ s ∈ (pythonAnalyzerOf fp content tree).structures,
        s.start_line ≤ s.end_line) ∧
    (∀ (fp content : String) (jf : JavaFile), javaFilePosOk content jf = true →
      ∀ s ∈ (javaAnalyzerOf fp content jf).structures,
        s.start_line ≤ s.end_line) := by
  constructor
  · intro fp content tree h s hs
    exact visitNode_startLE tree none h s hs
  · intro fp content jf h s hs
    exact javaStructures_startLE content jf h s hs

/-- Witness for C7: a span-correct one-function Python module and a
one-class Java file. -/
theorem c7_witness :
    (∀ s ∈ (pythonAnalyzerOf "t.py" "" treeC7).structures,
      s.start_line ≤ s.end_line) ∧
    (∀ s ∈ (javaAnalyzerOf "A.java" contentC7 javaFileC7).structures,
      s.start_line ≤ s.end_line) :=
  ⟨c7_start_le_end.1 "t.py" "" treeC7 (by decide),
   c7_start_le_end.2 "A.java" contentC7 javaFileC7 (by decide)⟩

theorem lookupCache_insertCache (c : Cache) (k : String) (a : LanguageAnalyzerState) :
    lookupCache (insertCache c k a) k = some a := by
  induction c with
  | nil => simp [insertCache, lookupCache]
  | cons p rest ih =>
    obtain ⟨k', a'⟩ := p
    by_cases h : k' = k
    · simp [insertCache, h, lookupCache]
    · simp [insertCache, h, lookupCache, ih]

/-- C8 amended: a cache hit is a pure read (the cache is unchanged and no
parse is invoked), and once a request for a key has succeeded, the analyzer
is cached under that key and any later identical request is such a pure
read.  (Failed attempts are not cached, so they may re-invoke the parser —
see the counterexample.) -/
theorem c8_cache_single_parse :
    (∀ (env : DiffEnv) (cache : Cache) (fp : String) (content : Option String)
      (ck : Option String) (a : LanguageAnalyzerState),
      lookupCache cache (cacheKeyOf fp ck) = some a →
      get_or_create_analyzer env cache fp content ck = (some a, cache, false)) ∧
    (∀ (env : DiffEnv) (cache : Cache) (fp : String) (content : Option String)
      (ck : Option String) (a : LanguageAnalyzerState) (cache' : Cache) (flag : Bool),
      get_or_create_analyzer env cache fp content ck = (some a, cache', flag) →
      get_or_create_analyzer env cache' fp content ck = (some a, cache', false)) := by
  have hhit : ∀ (env : DiffEnv) (cache : Cache) (fp : String) (content : Option String)
      (ck : Option String) (a : LanguageAnalyzerState),
      lookupCache cache (cacheKeyOf fp ck) = some a →
      get_or_create_analyzer env cache fp content ck = (some a, cache, false) := by
    intro env cache fp content ck a h
    simp [get_or_create_analyzer, h]
  refine ⟨hhit, ?_⟩
  intro env cache fp content ck a cache' flag h
  cases hl : lookupCache cache (cacheKeyOf fp ck) with
  | some a0 =>
    rw [hhit env cache fp content ck a0 hl] at h
    simp at h
    obtain ⟨ha, hc, -⟩ := h
    subst ha; subst hc
    exact hhit env cache fp content ck a0 hl
  | none =>
    cases hfc : (match content with | some c => some c | none => env.readFile fp) with
    | none =>
      have he : get_or_create_analyzer env cache fp content ck = (none, cache, false) := by
        simp [get_or_create_analyzer, hl, hfc]
      rw [he] at h
      simp at h
    | some fc =>
      by_cases hpy : pySuffix fp = ".py"
      · cases hast : env.pyAst fc with
        | none =>
          have he : get_or_create_analyzer env cache fp content ck = (none, cache, true) := by
            simp [get_or_create_analyzer, hl, hfc, hpy, hast]
          rw [he] at h
          simp at h
        | some tree =>
          have he : get_or_create_analyzer env cache fp content ck =
              (some (pythonAnalyzerOf fp fc tree),
                insertCache cache (cacheKeyOf fp ck) (pythonAnalyzerOf fp fc tree),
                true) := by
            simp [get_or_create_analyzer, hl, hfc, hpy, hast]
          rw [he] at h
          simp at h
          obtain ⟨ha, hc, -⟩ := h
          subst ha; subst hc
          exact hhit env _ fp content ck _ (lookupCache_insertCache cache _ _)
      · by_cases hjv : pySuffix fp = ".java"
        · cases hav : env.javalang_available with
          | false =>
            have he : get_or_create_analyzer env cache fp content ck = (none, cache, false) := by
              simp [get_or_create_analyzer, hl, hfc, hpy, hjv, hav]
            rw [he] at h
            simp at h
          | true =>
            cases hast : env.javaAst fc with
            | none =>
              have he : get_or_create_analyzer env cache fp content ck = (none, cache, true) := by
                simp [get_or_create_analyzer, hl, hfc, hpy, hjv, hav, hast]
              rw [he] at h
              simp at h
            | some jf =>
              have he : get_or_create_analyzer env cache fp content ck =
                  (some (javaAnalyzerOf fp fc jf),
                    insertCache cache (cacheKeyOf fp ck) (javaAnalyzerOf fp fc jf),
                    true) := by
                simp [get_or_create_analyzer, hl, hfc, hpy, hjv, hav, hast]
              rw [he] at h
              simp at h
              obtain ⟨ha, hc, -⟩ := h
              subst ha; subst hc
              exact hhit env _ fp content ck _ (lookupCache_insertCache cache _ _)
        · have he : get_or_create_analyzer env cache fp content ck = (none, cache, false) := by
            simp [get_or_create_analyzer, hl, hfc, hpy, hjv]
          rw [he] at h
          simp at h

/-- Witness for C8: after `p.py` is parsed and cached, repeating the request
returns the cached analyzer, leaves the cache unchanged and invokes no
parse. -/
theorem c8_witness :
    get_or_create_analyzer envC5
        (get_or_create_analyzer envC5 [] "p.py" none none).2.1 "p.py" none none =
      (some analyzerC5, (get_or_create_analyzer envC5 [] "p.py" none none).2.1, false) :=
  c8_cache_single_parse.2 envC5 [] "p.py" none none analyzerC5
    (get_or_create_analyzer envC5 [] "p.py" none none).2.1 true rfl

/-- C8 counterexample: `bad.py` is readable but fails to parse; the failure
is not cached, so a second request for the same key invokes the parser
again — the claim's "parse at most once per key, later requests are pure
cache reads" fails for keys whose parse fails. -/
theorem c8_counterexample :
    (get_or_create_analyzer envC8 [] "bad.py" none none).2.2 = true ∧
    (get_or_create_analyzer envC8
        (get_or_create_analyzer envC8 [] "bad.py" none none).2.1
        "bad.py" none none).2.2 = true :=
  ⟨rfl, rfl⟩

/-- C9: any diff body line beginning with `---` (e.g. the deletion of a line
whose content begins with `--`) is handled by the old-file-header branch:
no change record is emitted, neither line counter advances, and the
old-file path and old analyzer are re-resolved from the text following
`---`. -/
theorem c9_dashes_line_is_old_header (env : DiffEnv) (st : AnalyzeState)
    (line : String) (h : startsWithStr line "---" = true) :
    (step env st line).changes = st.changes ∧
    (step env st line).current_line_old = st.current_line_old ∧
    (step env st line).current_line_new = st.current_line_new ∧
    (step env st line).current_file_old = some (old_header_path line) ∧
    (step env st line).current_analyzer_old =
      (resolve_old_analyzer env st.analyzers (old_header_path line)).1 := by
  simp [step, h, process_old_header]

/-- Witness for C9: the deletion line `---x` (old content `--x`) under the
empty environment. -/
theorem c9_witness :
    (step envTrivial initState lineC9).changes = initState.changes ∧
    (step envTrivial initState lineC9).current_line_old = initState.current_line_old ∧
    (step envTrivial initState lineC9).current_line_new = initState.current_line_new ∧
    (step envTrivial initState lineC9).current_file_old = some (old_header_path lineC9) ∧
    (step envTrivial initState lineC9).current_analyzer_old =
      (resolve_old_analyzer envTrivial initState.analyzers (old_header_path lineC9)).1 :=
  c9_dashes_line_is_old_header envTrivial initState lineC9 rfl

theorem changesOk_dictAppend :
    ∀ (d : List (String × List DiffChange)), ChangesOk d →
      ∀ (k : String) (c : DiffChange),
        c.change_type = "+" ∨ c.change_type = "-" →
        ChangesOk (dictAppend d k c) := by
  intro d
  induction d with
  | nil =>
    intro _ k c hc pr hpr r hr
    simp [dictAppend] at hpr
    subst hpr
    simp at hr
    subst hr
    exact hc
  | cons p rest ih =>
    obtain ⟨k', cs⟩ := p
    intro hd k c hc pr hpr r hr
    have hdrest : ChangesOk rest := fun q hq => hd q (List.mem_cons_of_mem _ hq)
    by_cases hk : k' = k
    · rw [dictAppend, if_pos hk] at hpr
      rcases List.mem_cons.mp hpr with h1 | h1
      · subst h1
        rcases List.mem_append.mp hr with h2 | h2
        · exact hd (k', cs) (List.mem_cons_self _ _) r h2
        · simp at h2
          subst h2
          exact hc
      · exact hdrest pr h1 r hr
    · rw [dictAppend, if_neg hk] at hpr
      rcases List.mem_cons.mp hpr with h1 | h1
      · subst h1
        exact hd (k', cs) (List.mem_cons_self _ _) r hr
      · exact ih hdrest k c hc pr h1 r hr

theorem step_changesOk (env : DiffEnv) (st : AnalyzeState) (line : String)
    (h : ChangesOk st.changes) : ChangesOk (step env st line).changes := by
  rw [step]
  by_cases h1 : startsWithStr line "---" = true
  · simpa [h1, process_old_header] using h
  rw [if_neg h1]
  by_cases h2 : startsWithStr line "+++" = true
  · simpa [h2, process_new_header] using h
  rw [if_neg h2]
  by_cases h3 : startsWithStr line "@@" = true
  · rw [if_pos h3]
    cases parseHunkHeader line with
    | none => exact h
    | some p => obtain ⟨o, nw⟩ := p; exact h
  rw [if_neg h3]
  by_cases h4 : startsWithStr line "+" = true
  · rw [if_pos h4]
    rw [process_addition]
    cases hcf : st.current_file with
    | none => simpa using h
    | some f =>
      cases hca : st.current_analyzer_new with
      | none => simpa using h
      | some analyzer =>
        by_cases hf : f ≠ ""
        · simp only [if_pos hf]
          exact changesOk_dictAppend st.changes h f _ (Or.inl rfl)
        · simp only [if_neg hf]
          exact h
  rw [if_neg h4]
  by_cases h5 : startsWithStr line "-" = true
  · rw [if_pos h5]
    rw [process_deletion]
    cases hcf : st.current_file with
    | none => simpa using h
    | some f =>
      cases hca : st.current_analyzer_old with
      | none => simpa using h
      | some analyzer =>
        by_cases hf : f ≠ ""
        · simp only [if_pos hf]
          exact changesOk_dictAppend st.changes h f _ (Or.inr rfl)
        · simp only [if_neg hf]
          exact h
  rw [if_neg h5]
  by_cases h6 : startsWithStr line "\\" = true
  · rw [if_pos h6]; exact h
  · rw [if_neg h6]; exact h

theorem foldl_changesOk (env : DiffEnv) (lines : List String) :
    ∀ st : AnalyzeState, ChangesOk st.changes →
      ChangesOk (lines.foldl (step env) st).changes := by
  induction lines with
  | nil => intro st h; simpa using h
  | cons l rest ih => intro st h; exact ih _ (step_changesOk env st l h)

/-- C10: every record in `analyze`'s output has change type `'+'` or `'-'`;
a plain context line only advances both counters and emits nothing, and the
no-trailing-newline marker line advances neither counter and emits
nothing. -/
theorem c10_only_plus_minus_records :
    (∀ (env : DiffEnv) (diff_text : String), ChangesOk (analyze env diff_text)) ∧
    (∀ (env : DiffEnv) (st : AnalyzeState) (line : String),
      startsWithStr line "---" = false → startsWithStr line "+++" = false →
      startsWithStr line "@@" = false → startsWithStr line "+" = false →
      startsWithStr line "-" = false → startsWithStr line "\\" = false →
      (step env st line).changes = st.changes ∧
      (step env st line).current_line_new = st.current_line_new + 1 ∧
      (step env st line).current_line_old = st.current_line_old + 1) ∧
    (∀ (env : DiffEnv) (st : AnalyzeState),
      step env st "\\ No newline at end of file" = st) := by
  refine ⟨?_, ?_, ?_⟩
  · intro env diff_text
    rw [analyze, analyzeState]
    exact foldl_changesOk env _ initState (fun pr hpr => by cases hpr)
  · intro env st line h1 h2 h3 h4 h5 h6
    simp [step, h1, h2, h3, h4, h5, h6]
  · intro env st
    rfl

/-- Witness for C10: a concrete record produced by `analyze` (the deletion
of `diffC2`), and a concrete context line. -/
theorem c10_witness :
    ((⟨"t.py", 1, "x ", none, "-"⟩ : DiffChange).change_type = "+" ∨
      (⟨"t.py", 1, "x ", none, "-"⟩ : DiffChange).change_type = "-") ∧
    (step envTrivial initState " ctx").current_line_new =
      initState.current_line_new + 1 := by
  constructor
  · exact c10_only_plus_minus_records.1 envC2 diffC2
      ("t.py", [⟨"t.py", 1, "x ", none, "-"⟩, ⟨"t.py", 1, "x", none, "+"⟩])
      (List.Mem.head _) ⟨"t.py", 1, "x ", none, "-"⟩ (List.Mem.head _)
  · exact (c10_only_plus_minus_records.2.1 envTrivial initState " ctx"
      rfl rfl rfl rfl rfl rfl).2.1

end AstCodeDiff
